import Mathlib

/-
Verification of the kinisi trajectory-analysis core (`kinisi/parser.py`).

Shallow embedding conventions:
* machine floating-point values are modelled exactly by `ℚ`;
* IEEE NaN (which numpy produces when averaging over an empty axis) is
  modelled by `Option ℚ`, with `none` standing for NaN and the arithmetic
  operations propagating `none`;
* Python integers are `ℕ` (all integer quantities in the source are
  non-negative); `int(a / b)` on positive machine integers equals the
  mathematical floor `a / b : ℕ` (the double quotient of integers of this
  size never rounds across an integer boundary, so truncation = floor);
* the `ValueError` raised by `smoothed_timesteps` is the error case of an
  `Except`; the spec's error taxonomy is modelled by `PError`.
-/

namespace Kinisi

/-- `Option ℚ` as an exact model of an IEEE double that may be NaN
(`none` = NaN). -/
abbrev QN := Option ℚ

/-- NaN-propagating addition. -/
def qadd (a b : QN) : QN :=
  match a, b with
  | some x, some y => some (x + y)
  | _, _ => none

/-- NaN-propagating subtraction. -/
def qsub (a b : QN) : QN :=
  match a, b with
  | some x, some y => some (x - y)
  | _, _ => none

/-- NaN-propagating multiplication. -/
def qmul (a b : QN) : QN :=
  match a, b with
  | some x, some y => some (x * y)
  | _, _ => none

/-- Division of a possibly-NaN value by a natural count.  A zero count
models numpy's mean over an empty axis: `0/0` gives NaN. -/
def qdivNat (a : QN) (n : ℕ) : QN :=
  if n = 0 then none else a.map (fun x => x / (n : ℚ))

/-- Sum of a list of possibly-NaN values (`np.sum`). -/
def qsum (l : List QN) : QN := l.foldr qadd (some 0)

/-- `np.average` along an axis: the sum divided by the number of entries;
the mean over an empty axis is NaN. -/
def qaverage (l : List QN) : QN := qdivNat (qsum l) l.length

/-- Errors of the pipeline.  `insufficientData` models the
`ValueError('Not enough data to calculate diffusivity')` raised in
`smoothed_timesteps` (the only `raise` in `parser.py`); the spec calls it
`InsufficientDataError`.  `configurationError` is modelled from the spec:
the spec's §7 taxonomy names a `ConfigurationError` for bad input
structures or species selection, but no corresponding `raise` exists
anywhere in the source, so the constructor is never produced by the
embedded code. -/
inductive PError
  | insufficientData
  | configurationError
deriving DecidableEq

/-- `np.arange(start, stop, step)` for natural arguments with a positive
step: the integers `start, start + step, start + 2*step, ...` strictly
below `stop`.  Its length is `⌈(stop - start) / step⌉`. -/
def arangeN (start stop step : ℕ) : List ℕ :=
  (List.range ((stop - start + step - 1) / step)).map (fun k => start + k * step)

/-- `PymatgenParser.smoothed_timesteps(nsteps, min_obs)`.  `indices` is
`self.indices` (the mobile-atom indices collected by
`correct_for_drift`); `time_step` and `step_skip` are the sampling
parameters stored on the parser.  Mirrors the source:
`min_dt = int(1000 / (step_skip * time_step))`,
`max_dt = min(len(indices) * nsteps // min_obs, nsteps)`,
raise `ValueError` when `min_dt >= max_dt`, else return
`np.arange(min_dt, max_dt, max(int((max_dt - min_dt) / 200), 1))`. -/
def smoothed_timesteps (time_step step_skip : ℕ) (indices : List ℕ)
    (nsteps min_obs : ℕ) : Except PError (List ℕ) :=
  let min_dt := 1000 / (step_skip * time_step)
  let max_dt := min (indices.length * nsteps / min_obs) nsteps
  if max_dt ≤ min_dt then
    Except.error PError.insufficientData
  else
    Except.ok (arangeN min_dt max_dt (max ((max_dt - min_dt) / 200) 1))

/-- Elements of `np.arange`. -/
theorem arangeN_mem (s e st x : ℕ) :
    x ∈ arangeN s e st ↔ ∃ k, k < (e - s + st - 1) / st ∧ x = s + k * st := by
  simp only [arangeN, List.mem_map, List.mem_range]
  constructor
  · rintro ⟨k, hk, rfl⟩; exact ⟨k, hk, rfl⟩
  · rintro ⟨k, hk, rfl⟩; exact ⟨k, hk, rfl⟩

/-- Length of `np.arange`. -/
theorem arangeN_length (s e st : ℕ) :
    (arangeN s e st).length = (e - s + st - 1) / st := by
  simp [arangeN]

/-- Entries of `np.arange`. -/
theorem arangeN_get (s e st k : ℕ) (h : k < (arangeN s e st).length) :
    (arangeN s e st).get ⟨k, h⟩ = s + k * st := by
  simp [arangeN]

/-- Index bound for the ceiling-division length of `np.arange`. -/
theorem lt_ceil_iff (D st k : ℕ) (hst : 0 < st) :
    k < (D + st - 1) / st ↔ k * st < D := by
  have h := Nat.le_div_iff_mul_le (x := k + 1) (y := D + st - 1) hst
  have e : (k + 1) * st = k * st + st := by ring
  rw [e] at h
  omega

/-- The step `max(⌊D/200⌋, 1)` keeps the `np.arange` length below 400. -/
theorem ceil_div_max_bound (D : ℕ) (hD : 0 < D) :
    (D + max (D / 200) 1 - 1) / max (D / 200) 1 < 400 := by
  have hst : 0 < max (D / 200) 1 := lt_of_lt_of_le one_pos (le_max_right _ _)
  rw [Nat.div_lt_iff_lt_mul hst]
  by_cases hq : D / 200 ≤ 1
  · rw [max_eq_right hq]; omega
  · rw [max_eq_left (by omega : 1 ≤ D / 200)]; omega

/-- Successful runs of `smoothed_timesteps` return exactly the
`np.arange` progression, and the bounds satisfy `min_dt < max_dt`. -/
theorem smoothed_ok_eq (ts ss : ℕ) (idx : List ℕ) (ns mo : ℕ) (l : List ℕ)
    (hok : smoothed_timesteps ts ss idx ns mo = Except.ok l) :
    l = arangeN (1000 / (ss * ts)) (min (idx.length * ns / mo) ns)
        (max ((min (idx.length * ns / mo) ns - 1000 / (ss * ts)) / 200) 1) ∧
    1000 / (ss * ts) < min (idx.length * ns / mo) ns := by
  unfold smoothed_timesteps at hok
  by_cases hc : min (idx.length * ns / mo) ns ≤ 1000 / (ss * ts)
  · simp [hc] at hok
  · simp [hc] at hok
    exact ⟨hok.symm, by omega⟩

/-- C1: `smoothed_timesteps` raises the insufficient-data error exactly
when `min_dt >= max_dt`, and returns normally otherwise. -/
theorem c1_sampler_error_iff (ts ss : ℕ) (idx : List ℕ) (ns mo : ℕ)
    (hts : 0 < ss * ts) (hmo : 0 < mo) :
    (smoothed_timesteps ts ss idx ns mo = Except.error PError.insufficientData ↔
      min (idx.length * ns / mo) ns ≤ 1000 / (ss * ts)) ∧
    (1000 / (ss * ts) < min (idx.length * ns / mo) ns →
      ∃ l, smoothed_timesteps ts ss idx ns mo = Except.ok l) := by
  unfold smoothed_timesteps
  by_cases hc : min (idx.length * ns / mo) ns ≤ 1000 / (ss * ts)
  · simp [hc]; omega
  · simp [hc]

theorem c1_witness :
    0 < 1 * 1 ∧ 0 < 30 ∧
    ((smoothed_timesteps 1 1 [0, 1] 60 30 = Except.error PError.insufficientData ↔
      min ([0, 1].length * 60 / 30) 60 ≤ 1000 / (1 * 1)) ∧
    (1000 / (1 * 1) < min ([0, 1].length * 60 / 30) 60 →
      ∃ l, smoothed_timesteps 1 1 [0, 1] 60 30 = Except.ok l)) :=
  ⟨by decide, by decide, c1_sampler_error_iff 1 1 [0, 1] 60 30 (by decide) (by decide)⟩

/-- C3 (failing input): with `time_step = 1001`, `step_skip = 1`, one
mobile atom, `nsteps = 2`, `min_obs = 1`, the sampler returns the
interval set `[0, 1]`, whose first element is not positive. -/
theorem c3_interval_zero : smoothed_timesteps 1001 1 [0] 2 1 = Except.ok [0, 1] := rfl

/-- C4 (counterexample): with `time_step = 3`, `step_skip = 1`, the
returned interval `333` spans only `999 < 1000` real-time units. -/
theorem c4_counterexample :
    333 ∈ (smoothed_timesteps 3 1 [0] 400 1).toOption.getD [] ∧ 333 * 3 * 1 < 1000 :=
  ⟨by set_option maxRecDepth 4000 in decide, by decide⟩

/-- C4 (amended): every returned interval is at least
`min_dt = ⌊1000 / (step_skip * time_step)⌋`, hence spans strictly more
than `1000 - time_step * step_skip` real-time units (`≥ 1000` only when
`step_skip * time_step` divides 1000). -/
theorem c4_interval_span (ts ss : ℕ) (idx : List ℕ) (ns mo : ℕ) (l : List ℕ)
    (hts : 0 < ss * ts) (hmo : 0 < mo)
    (hok : smoothed_timesteps ts ss idx ns mo = Except.ok l) :
    ∀ d ∈ l, 1000 / (ss * ts) ≤ d ∧ 1001 ≤ d * ts * ss + ts * ss := by
  obtain ⟨hl, hlt⟩ := smoothed_ok_eq ts ss idx ns mo l hok
  intro d hd
  rw [hl, arangeN_mem] at hd
  obtain ⟨k, hk, rfl⟩ := hd
  refine ⟨Nat.le_add_right _ _, ?_⟩
  have h1 := Nat.div_add_mod 1000 (ss * ts)
  have h2 : 1000 % (ss * ts) < ss * ts := Nat.mod_lt _ hts
  have h3 : (ss * ts) * (1000 / (ss * ts)) ≤
      (ss * ts) * (1000 / (ss * ts) + k * max ((min (idx.length * ns / mo) ns - 1000 / (ss * ts)) / 200) 1) :=
    Nat.mul_le_mul_left _ (Nat.le_add_right _ _)
  have h4 : (1000 / (ss * ts) + k * max ((min (idx.length * ns / mo) ns - 1000 / (ss * ts)) / 200) 1) * ts * ss =
      (ss * ts) * (1000 / (ss * ts) + k * max ((min (idx.length * ns / mo) ns - 1000 / (ss * ts)) / 200) 1) := by
    ring
  have h5 : ts * ss = ss * ts := by ring
  rw [h4, h5]
  omega

theorem c4_witness :
    0 < 1 * 500 ∧ 0 < 1 ∧ smoothed_timesteps 500 1 [0] 10 1 = Except.ok [2, 3, 4, 5, 6, 7, 8, 9] ∧
    ∀ d ∈ [2, 3, 4, 5, 6, 7, 8, 9], 1000 / (1 * 500) ≤ d ∧ 1001 ≤ d * 500 * 1 + 500 * 1 :=
  ⟨by decide, by decide, rfl,
    c4_interval_span 500 1 [0] 10 1 [2, 3, 4, 5, 6, 7, 8, 9] (by decide) (by decide) rfl⟩

/-- C5 (counterexample): with `min_dt = 1`, `max_dt = 400` the step is 1
and the interval set has 399 points, roughly double the claimed ~200. -/
theorem c5_counterexample :
    (smoothed_timesteps 1000 1 [0] 400 1).toOption.map List.length = some 399 ∧
    ¬ (399 : ℕ) ≤ 200 :=
  ⟨by set_option maxRecDepth 4000 in decide, by decide⟩

/-- C5 (amended): the returned interval set is exactly the arithmetic
progression starting at `min_dt` with common difference
`max(1, ⌊(max_dt - min_dt) / 200⌋)` whose elements are strictly below
`max_dt`, and it contains fewer than 400 points (at most `2·200 - 1`,
not ~200) regardless of trajectory length. -/
theorem c5_arith_progression (ts ss : ℕ) (idx : List ℕ) (ns mo : ℕ) (l : List ℕ)
    (hts : 0 < ss * ts) (hmo : 0 < mo)
    (hok : smoothed_timesteps ts ss idx ns mo = Except.ok l) :
    l.length < 400 ∧
    (∀ k (hk : k < l.length),
      l.get ⟨k, hk⟩ = 1000 / (ss * ts) +
        k * max ((min (idx.length * ns / mo) ns - 1000 / (ss * ts)) / 200) 1) ∧
    (∀ x ∈ l, x < min (idx.length * ns / mo) ns) ∧
    (∀ j, 1000 / (ss * ts) +
        j * max ((min (idx.length * ns / mo) ns - 1000 / (ss * ts)) / 200) 1 <
          min (idx.length * ns / mo) ns →
      1000 / (ss * ts) +
        j * max ((min (idx.length * ns / mo) ns - 1000 / (ss * ts)) / 200) 1 ∈ l) := by
  obtain ⟨hl, hlt⟩ := smoothed_ok_eq ts ss idx ns mo l hok
  have hst : 0 < max ((min (idx.length * ns / mo) ns - 1000 / (ss * ts)) / 200) 1 :=
    lt_of_lt_of_le one_pos (le_max_right _ _)
  have hD : 0 < min (idx.length * ns / mo) ns - 1000 / (ss * ts) := by omega
  subst hl
  refine ⟨?_, ?_, ?_, ?_⟩
  · rw [arangeN_length]
    exact ceil_div_max_bound _ hD
  · intro k hk
    exact arangeN_get _ _ _ _ hk
  · intro x hx
    rw [arangeN_mem] at hx
    obtain ⟨k, hk, rfl⟩ := hx
    have := (lt_ceil_iff _ _ k hst).mp hk
    omega
  · intro j hj
    rw [arangeN_mem]
    refine ⟨j, ?_, rfl⟩
    rw [lt_ceil_iff _ _ _ hst]
    omega

theorem c5_witness :
    0 < 1 * 1000 ∧ 0 < 1 ∧ smoothed_timesteps 1000 1 [0] 4 1 = Except.ok [1, 2, 3] ∧
    ([1, 2, 3] : List ℕ).length < 400 ∧
    (∀ k (hk : k < ([1, 2, 3] : List ℕ).length),
      ([1, 2, 3] : List ℕ).get ⟨k, hk⟩ = 1000 / (1 * 1000) +
        k * max ((min ([0].length * 4 / 1) 4 - 1000 / (1 * 1000)) / 200) 1) ∧
    (∀ x ∈ ([1, 2, 3] : List ℕ), x < min ([0].length * 4 / 1) 4) ∧
    (∀ j, 1000 / (1 * 1000) +
        j * max ((min ([0].length * 4 / 1) 4 - 1000 / (1 * 1000)) / 200) 1 <
          min ([0].length * 4 / 1) 4 →
      1000 / (1 * 1000) +
        j * max ((min ([0].length * 4 / 1) 4 - 1000 / (1 * 1000)) / 200) 1 ∈
          ([1, 2, 3] : List ℕ)) :=
  ⟨by decide, by decide, rfl,
    c5_arith_progression 1000 1 [0] 4 1 [1, 2, 3] (by decide) (by decide) rfl⟩

/-- The mobile/framework partition built by the loop at the top of
`correct_for_drift`: position `i` of the frame-0 structure is mobile
(`self.indices`) when its species symbol equals `specie`, framework
otherwise. -/
def speciesIndices (species : List String) (specie : String) : List ℕ × List ℕ :=
  ((List.range species.length).filter (fun i => species.getD i "" = specie),
   (List.range species.length).filter (fun i => ¬ species.getD i "" = specie))

/-- `PymatgenParser.correct_for_drift(structure, disp, specie)` as a
function of the displacement entries.  `disp i f ax` is the (always
defined) raw displacement of atom `i` at frame `f` on axis `ax`; the
result subtracts the per-frame, per-axis mean displacement of the
framework atoms (`np.average(disp[framework_indices], axis=0)`), which
is NaN (`none`) when the framework is empty. -/
def correct_for_drift (species : List String) (specie : String)
    (disp : ℕ → ℕ → ℕ → ℚ) : ℕ → ℕ → ℕ → QN :=
  fun i f ax =>
    qsub (some (disp i f ax))
      (qaverage ((speciesIndices species specie).2.map (fun j => some (disp j f ax))))

/-- Summing a list of defined values is defined. -/
theorem qsum_map_some {α : Type} (l : List α) (h : α → ℚ) :
    qsum (l.map (fun x => some (h x))) = some ((l.map h).sum) := by
  induction l with
  | nil => rfl
  | cons a t ih => simp [qsum, qadd, List.foldr] at ih ⊢; rw [ih]

/-- Averaging a nonempty list of defined values is defined. -/
theorem qaverage_map_some {α : Type} (l : List α) (h : α → ℚ) (hl : l ≠ []) :
    qaverage (l.map (fun x => some (h x))) = some ((l.map h).sum / (l.length : ℚ)) := by
  have hn : l.length ≠ 0 := fun e => hl (List.length_eq_zero.mp e)
  simp [qaverage, qdivNat, qsum_map_some, hn]

/-- Sum of a constant shift over a list. -/
theorem list_sum_map_sub (l : List ℕ) (h : ℕ → ℚ) (c : ℚ) :
    (l.map (fun j => h j - c)).sum = (l.map h).sum - (l.length : ℚ) * c := by
  induction l with
  | nil => simp
  | cons a t ih => simp [ih]; ring

/-- C2: when at least one framework atom exists, every drift-corrected
entry subtracts the per-frame framework mean from the raw displacement,
and the framework mean of the corrected displacements is exactly zero at
every frame and axis. -/
theorem c2_drift_framework_mean_zero (species : List String) (specie : String)
    (disp : ℕ → ℕ → ℕ → ℚ)
    (hfw : (speciesIndices species specie).2 ≠ []) :
    ∀ f ax,
      (∀ i, correct_for_drift species specie disp i f ax =
        some (disp i f ax -
          (((speciesIndices species specie).2.map (fun j => disp j f ax)).sum /
            ((speciesIndices species specie).2.length : ℚ)))) ∧
      qaverage ((speciesIndices species specie).2.map
          (fun j => correct_for_drift species specie disp j f ax)) = some 0 := by
  intro f ax
  set fw := (speciesIndices species specie).2 with hfwdef
  have hlen : (fw.length : ℚ) ≠ 0 := by
    have : fw.length ≠ 0 := fun e => hfw (List.length_eq_zero.mp e)
    exact_mod_cast this
  have havg : qaverage (fw.map (fun j => some (disp j f ax))) =
      some ((fw.map (fun j => disp j f ax)).sum / (fw.length : ℚ)) :=
    qaverage_map_some fw (fun j => disp j f ax) hfw
  have hentry : ∀ i, correct_for_drift species specie disp i f ax =
      some (disp i f ax - ((fw.map (fun j => disp j f ax)).sum / (fw.length : ℚ))) := by
    intro i
    rw [correct_for_drift, ← hfwdef, havg]
    rfl
  refine ⟨hentry, ?_⟩
  have hmap : fw.map (fun j => correct_for_drift species specie disp j f ax) =
      fw.map (fun j => some (disp j f ax -
        ((fw.map (fun j => disp j f ax)).sum / (fw.length : ℚ)))) :=
    List.map_congr_left (fun j _ => hentry j)
  rw [hmap, qaverage_map_some _ _ hfw, list_sum_map_sub]
  have : (fw.map (fun j => disp j f ax)).sum -
      (fw.length : ℚ) * ((fw.map (fun j => disp j f ax)).sum / (fw.length : ℚ)) = 0 := by
    field_simp
  rw [this, zero_div]

theorem c2_witness :
    (speciesIndices ["Li", "O"] "Li").2 ≠ [] ∧
    ∀ f ax,
      (∀ i, correct_for_drift ["Li", "O"] "Li" (fun i f ax => (i + f * ax : ℚ)) i f ax =
        some ((i + f * ax : ℚ) -
          (((speciesIndices ["Li", "O"] "Li").2.map (fun j => ((j : ℚ) + f * ax))).sum /
            (((speciesIndices ["Li", "O"] "Li").2.length : ℚ))))) ∧
      qaverage ((speciesIndices ["Li", "O"] "Li").2.map
          (fun j => correct_for_drift ["Li", "O"] "Li" (fun i f ax => (i + f * ax : ℚ)) j f ax)) =
        some 0 :=
  ⟨by decide, c2_drift_framework_mean_zero ["Li", "O"] "Li"
    (fun i f ax => (i + f * ax : ℚ)) (by decide)⟩

/-- C10: when every atom is mobile (the framework partition is empty),
`correct_for_drift` still returns (it is total; numpy only emits a
warning for the empty mean), and every entry of the result is NaN
(`none`), not the uncorrected displacement. -/
theorem c10_empty_framework_nan (species : List String) (specie : String)
    (disp : ℕ → ℕ → ℕ → ℚ)
    (hall : ∀ s ∈ species, s = specie) :
    ∀ i f ax, correct_for_drift species specie disp i f ax = none := by
  intro i f ax
  have hfw : (speciesIndices species specie).2 = [] := by
    simp only [speciesIndices]
    rw [List.filter_eq_nil_iff]
    intro a ha
    have haa : a < species.length := List.mem_range.mp ha
    have hg : species.getD a "" = specie := by
      rw [List.getD_eq_getElem species "" haa]
      exact hall _ (List.getElem_mem haa)
    simpa using hg
  rw [correct_for_drift, hfw]
  rfl

theorem c10_witness :
    (∀ s ∈ ["Li", "Li"], s = "Li") ∧
    ∀ i f ax, correct_for_drift ["Li", "Li"] "Li" (fun i _ _ => (i : ℚ)) i f ax = none :=
  ⟨by decide, c10_empty_framework_nan ["Li", "Li"] "Li" (fun i _ _ => (i : ℚ)) (by decide)⟩

/-- Row `i` of `np.average(np.sum(sq_disp, axis=2), axis=1)` inside
`get_disps`, at interval `dt`: the time-origin average (over the
`nsteps - dt` origins of `disp = drift_corrected[:, dt:, :] -
drift_corrected[:, :-dt, :]`) of the squared displacement summed over
the three axes.  (For `dt = 0` the source crashes on the empty slice
`[:, :-0, :]` with a numpy broadcast `ValueError`; this definition is
the meaning of the source for `dt ≥ 1`.) -/
def sq_disp_ion (nsteps : ℕ) (dc : ℕ → ℕ → ℕ → QN) (i dt : ℕ) : QN :=
  qaverage ((List.range (nsteps - dt)).map (fun f =>
    qsum ((List.range 3).map (fun ax =>
      qmul (qsub (dc i (f + dt) ax) (dc i f ax)) (qsub (dc i (f + dt) ax) (dc i f ax))))))

/-- `msd[i]` in `get_disps`: `np.average(sq_disp_ions[:, i][self.indices])`. -/
def msd_at (indices : List ℕ) (nsteps : ℕ) (dc : ℕ → ℕ → ℕ → QN) (dt : ℕ) : QN :=
  qaverage (indices.map (fun i => sq_disp_ion nsteps dc i dt))

/-- `PymatgenParser.get_disps(timesteps, drift_corrected)`: returns
`(delta_t, msd, sq_disp_store, disp_store)` where
`delta_t = timesteps * time_step * step_skip`, `msd` is `msd_at` per
timestep, `sq_disp_store` collects `np.sum(sq_disp, axis=2)[indices]`
and `disp_store` collects `np.sum(disp, axis=2)[indices]`. -/
def get_disps (time_step step_skip : ℕ) (indices : List ℕ) (nsteps : ℕ)
    (dc : ℕ → ℕ → ℕ → QN) (timesteps : List ℕ) :
    List ℕ × List QN × List (List (List QN)) × List (List (List QN)) :=
  (timesteps.map (fun t => t * time_step * step_skip),
   timesteps.map (fun dt => msd_at indices nsteps dc dt),
   timesteps.map (fun dt => indices.map (fun i =>
     (List.range (nsteps - dt)).map (fun f =>
       qsum ((List.range 3).map (fun ax =>
         qmul (qsub (dc i (f + dt) ax) (dc i f ax)) (qsub (dc i (f + dt) ax) (dc i f ax))))))),
   timesteps.map (fun dt => indices.map (fun i =>
     (List.range (nsteps - dt)).map (fun f =>
       qsum ((List.range 3).map (fun ax => qsub (dc i (f + dt) ax) (dc i f ax)))))))

/-- C6: for a defined drift-corrected array, a nonempty mobile set and an
interval `0 < dt < nsteps`, entry `k` of the `msd` output of `get_disps`
is the mean over the mobile atoms of the mean over the `nsteps - dt`
time origins of the squared displacement between frames `f` and `f + dt`
summed over the three spatial axes. -/
theorem c6_msd_formula (time_step step_skip : ℕ) (indices : List ℕ) (nsteps : ℕ)
    (g : ℕ → ℕ → ℕ → ℚ) (timesteps : List ℕ) (k dt : ℕ)
    (hk : timesteps.get? k = some dt) (h0 : 0 < dt) (h1 : dt < nsteps)
    (hind : indices ≠ []) :
    (get_disps time_step step_skip indices nsteps
        (fun i f ax => some (g i f ax)) timesteps).2.1.get? k =
      some (some ((indices.map (fun i =>
        ((List.range (nsteps - dt)).map (fun f =>
          ((List.range 3).map (fun ax => (g i (f + dt) ax - g i f ax) ^ 2)).sum)).sum /
          ((nsteps - dt : ℕ) : ℚ))).sum / (indices.length : ℚ))) := by
  have hrange : List.range (nsteps - dt) ≠ [] := by
    simp only [ne_eq, List.range_eq_nil]
    omega
  have hsq : ∀ i, sq_disp_ion nsteps (fun i f ax => some (g i f ax)) i dt =
      some (((List.range (nsteps - dt)).map (fun f =>
        ((List.range 3).map (fun ax => (g i (f + dt) ax - g i f ax) ^ 2)).sum)).sum /
        ((nsteps - dt : ℕ) : ℚ)) := by
    intro i
    unfold sq_disp_ion
    have e2 : ((List.range (nsteps - dt)).map (fun f =>
        qsum ((List.range 3).map (fun ax =>
          qmul (qsub (some (g i (f + dt) ax)) (some (g i f ax)))
               (qsub (some (g i (f + dt) ax)) (some (g i f ax))))))) =
        (List.range (nsteps - dt)).map (fun f =>
          some (((List.range 3).map (fun ax =>
            (g i (f + dt) ax - g i f ax) ^ 2)).sum)) := by
      refine List.map_congr_left (fun f _ => ?_)
      have e1 : ((List.range 3).map (fun ax =>
          qmul (qsub (some (g i (f + dt) ax)) (some (g i f ax)))
               (qsub (some (g i (f + dt) ax)) (some (g i f ax))))) =
          (List.range 3).map (fun ax => some ((g i (f + dt) ax - g i f ax) ^ 2)) := by
        refine List.map_congr_left (fun ax _ => ?_)
        simp [qsub, qmul, pow_two]
      rw [e1]
      exact qsum_map_some (List.range 3) _
    rw [e2, qaverage_map_some _ _ hrange, List.length_range]
  have hmsd : msd_at indices nsteps (fun i f ax => some (g i f ax)) dt =
      some ((indices.map (fun i =>
        ((List.range (nsteps - dt)).map (fun f =>
          ((List.range 3).map (fun ax => (g i (f + dt) ax - g i f ax) ^ 2)).sum)).sum /
          ((nsteps - dt : ℕ) : ℚ))).sum / (indices.length : ℚ)) := by
    unfold msd_at
    rw [List.map_congr_left (fun i _ => hsq i), qaverage_map_some _ _ hind]
  show (timesteps.map (fun d =>
      msd_at indices nsteps (fun i f ax => some (g i f ax)) d)).get? k = _
  rw [List.get?_map, hk]
  show some (msd_at indices nsteps (fun i f ax => some (g i f ax)) dt) = _
  rw [hmsd]

theorem c6_witness :
    ([1] : List ℕ).get? 0 = some 1 ∧ 0 < 1 ∧ 1 < 2 ∧ ([0] : List ℕ) ≠ [] ∧
    (get_disps 1 1 [0] 2 (fun i f ax => some ((f : ℚ) * (i + 1) + ax)) [1]).2.1.get? 0 =
      some (some ((([0] : List ℕ).map (fun i =>
        ((List.range (2 - 1)).map (fun f =>
          ((List.range 3).map (fun ax =>
            (((f + 1 : ℕ) : ℚ) * (i + 1) + ax - ((f : ℚ) * (i + 1) + ax)) ^ 2)).sum)).sum /
          ((2 - 1 : ℕ) : ℚ))).sum / (([0] : List ℕ).length : ℚ))) :=
  ⟨rfl, by decide, by decide, by decide,
    c6_msd_formula 1 1 [0] 2 (fun i f ax => (f : ℚ) * (i + 1) + ax) [1] 0 1 rfl
      (by decide) (by decide) (by decide)⟩

/-- One frame of the trajectory: a pymatgen `Structure` restricted to
the fields the parser reads (per-site species symbols, fractional
coordinates, and the lattice matrix as a list of rows). -/
structure Frame where
  species : List String
  frac_coords : List (List ℚ)
  lattice : List (List ℚ)

/-- `np.round` rounds half to even; on exact rationals: the nearest
integer, ties going to the even one. -/
def roundHalfEven (q : ℚ) : ℤ :=
  if q - ⌊q⌋ < 1 / 2 then ⌊q⌋
  else if 1 / 2 < q - ⌊q⌋ then ⌊q⌋ + 1
  else if ⌊q⌋ % 2 = 0 then ⌊q⌋ else ⌊q⌋ + 1

/-- One entry of `d_coords - np.round(d_coords)`: the minimum-image wrap
of a fractional-coordinate delta. -/
def wrapDelta (q : ℚ) : ℚ := q - roundHalfEven q

/-- `coords.insert(0, coords[0])` / `latt.insert(0, latt[0])`: duplicate
the first element (the source raises `IndexError` on an empty list; the
embedding is used on nonempty trajectories). -/
def dupHead {α : Type} (l : List α) : List α :=
  match l with
  | [] => []
  | x :: xs => x :: x :: xs

/-- Row `a` of the `(site, time step, axis)` coordinate array built by
`_get_structure_and_disp` (after `np.concatenate(coords, axis=1)` with
the duplicated first frame): atom `a`'s fractional coordinates in each
frame. -/
def atomTrack (structures : List Frame) (a : ℕ) : List (List ℚ) :=
  dupHead (structures.map (fun s => s.frac_coords.getD a []))

/-- Row of `d_coords = coords[:, 1:] - coords[:, :-1]` followed by
`d_coords - np.round(d_coords)`: wrapped deltas between consecutive
frames. -/
def deltas (cs : List (List ℚ)) : List (List ℚ) :=
  List.zipWith (fun nxt cur => List.zipWith (fun x y => wrapDelta (x - y)) nxt cur)
    cs.tail cs

/-- `np.cumsum(d_coords, axis=1)` along one atom row, with accumulator. -/
def cumsumFrom (acc : List ℚ) : List (List ℚ) → List (List ℚ)
  | [] => []
  | v :: vs =>
    let nxt := List.zipWith (· + ·) acc v
    nxt :: cumsumFrom nxt vs

/-- Row of `f_disp = np.cumsum(d_coords, axis=1)`. -/
def fDisp (cs : List (List ℚ)) : List (List ℚ) := cumsumFrom [0, 0, 0] (deltas cs)

/-- `np.dot(d, m)` for a length-3 vector `d` and 3x3 matrix `m` (list of
rows): `(d · m)_j = Σ_k d_k m_{k j}`. -/
def dotVM (v : List ℚ) (m : List (List ℚ)) : List ℚ :=
  (List.zipWith (fun x row => row.map (fun y => x * y)) v m).foldr
    (fun r acc => List.zipWith (· + ·) r acc) [0, 0, 0]

/-- Row `a` of `c_disp`: `[np.dot(d, m) for d, m in zip(i, latt[1:])]`
(after the duplicate insertion, `latt[1:]` is the original per-frame
lattice list, so each frame is transformed by its own lattice). -/
def cDispRow (structures : List Frame) (a : ℕ) : List (List ℚ) :=
  List.zipWith dotVM (fDisp (atomTrack structures a)) (structures.map (fun s => s.lattice))

/-- The Cartesian displacement array `disp` returned by
`_get_structure_and_disp` (shape `(site, time step, axis)`).  The
first-equals-last lattice check in the source happens after this array
is built and only collapses a local variable that is not returned. -/
def dispOf (structures : List Frame) : List (List (List ℚ)) :=
  (List.range (match structures with | [] => 0 | s :: _ => s.frac_coords.length)).map
    (fun a => cDispRow structures a)

/-- Modelled from the spec: the constant-lattice variant of the
transform, which uses frame 0's lattice matrix for the whole run.  The
spec says this variant is selected when the first and last lattice
matrices are exactly equal; no such selection exists in the source
before the transform, so this definition exists only to be compared
with `dispOf`. -/
def dispOfConstLattice (structures : List Frame) : List (List (List ℚ)) :=
  (List.range (match structures with | [] => 0 | s :: _ => s.frac_coords.length)).map
    (fun a => (fDisp (atomTrack structures a)).map
      (fun v => dotVM v (match structures with | [] => [] | s :: _ => s.lattice)))

/-- Exact bound for `np.round` on rationals. -/
lemma wrapDelta_bound (q : ℚ) : -(1 / 2) ≤ wrapDelta q ∧ wrapDelta q ≤ 1 / 2 := by
  have h1 : ((⌊q⌋ : ℤ) : ℚ) ≤ q := Int.floor_le q
  have h2 : q < ⌊q⌋ + 1 := Int.lt_floor_add_one q
  rw [wrapDelta, roundHalfEven]
  split_ifs with ha hb hc
  · constructor <;> linarith
  · rw [Int.cast_add, Int.cast_one]
    constructor <;> linarith
  · constructor <;> linarith
  · rw [Int.cast_add, Int.cast_one]
    constructor <;> linarith

/-- A member of a `zipWith` is an image of the function. -/
lemma mem_zipWith {α β γ : Type} {f : α → β → γ} :
    ∀ {l₁ : List α} {l₂ : List β} {c : γ}, c ∈ List.zipWith f l₁ l₂ → ∃ a b, c = f a b := by
  intro l₁
  induction l₁ with
  | nil =>
    intro l₂ c h
    simp at h
  | cons a t ih =>
    intro l₂ c h
    cases l₂ with
    | nil => simp at h
    | cons b u =>
      rw [List.zipWith_cons_cons] at h
      rcases List.mem_cons.mp h with hc | hc
      · exact ⟨a, b, hc⟩
      · exact ih hc

/-- `wrapDelta 0 = 0`. -/
lemma wrapDelta_zero : wrapDelta 0 = 0 := by
  have h : ⌊(0 : ℚ)⌋ = 0 := by norm_num
  rw [wrapDelta, roundHalfEven, h]
  norm_num

/-- At an exact tie with even floor, the wrap is `+1/2` (numpy rounds
half to even, so `0.5 - round(0.5) = 0.5`). -/
lemma wrapDelta_half : wrapDelta (1 / 2 : ℚ) = 1 / 2 := by
  have h : ⌊(1 / 2 : ℚ)⌋ = 0 := by norm_num
  rw [wrapDelta, roundHalfEven, h]
  norm_num

/-- `wrapDelta (1/10) = 1/10`. -/
lemma wrapDelta_tenth : wrapDelta (1 / 10 : ℚ) = 1 / 10 := by
  have h : ⌊(1 / 10 : ℚ)⌋ = 0 := by norm_num
  rw [wrapDelta, roundHalfEven, h]
  norm_num

/-- The identity lattice matrix. -/
def idM : List (List ℚ) := [[1, 0, 0], [0, 1, 0], [0, 0, 1]]

/-- Two frames whose single atom moves from fractional `(0,0,0)` to
`(1/2,0,0)`: the wrapped delta on the first axis is exactly `+1/2`. -/
def c7S : List Frame := [⟨["Li"], [[0, 0, 0]], idM⟩, ⟨["Li"], [[1 / 2, 0, 0]], idM⟩]

/-- C7 (counterexample): the wrapped fractional delta of the trajectory
`c7S` at frame 1, atom 0, axis 0 is exactly `1/2`, which is not in the
half-open interval `[-1/2, 1/2)`. -/
theorem c7_counterexample :
    deltas (atomTrack c7S 0) = [[0, 0, 0], [1 / 2, 0, 0]] ∧ ¬ ((1 / 2 : ℚ) < 1 / 2) := by
  constructor
  · norm_num [deltas, atomTrack, dupHead, c7S, wrapDelta_zero, wrapDelta_half]
  · norm_num

/-- C7 (amended): every wrapped fractional-coordinate delta computed by
`_get_structure_and_disp` lies in the closed interval `[-1/2, 1/2]`;
with round-half-to-even both endpoints are attained (`+1/2` at an even
tie, `-1/2` at an odd tie), so the interval is not half-open. -/
theorem c7_wrap_interval (S : List Frame) (a : ℕ) (v : List ℚ) (x : ℚ)
    (hv : v ∈ deltas (atomTrack S a)) (hx : x ∈ v) :
    -(1 / 2) ≤ x ∧ x ≤ 1 / 2 := by
  obtain ⟨nxt, cur, rfl⟩ := mem_zipWith hv
  obtain ⟨p, r, rfl⟩ := mem_zipWith hx
  exact wrapDelta_bound _

/-- Two stationary frames used to witness `c7_wrap_interval`. -/
def c7W : List Frame := [⟨["Li"], [[0, 0, 0]], idM⟩, ⟨["Li"], [[0, 0, 0]], idM⟩]

theorem c7_witness :
    ([(0 : ℚ), 0, 0] ∈ deltas (atomTrack c7W 0)) ∧ ((0 : ℚ) ∈ [(0 : ℚ), 0, 0]) ∧
    (-(1 / 2) ≤ (0 : ℚ) ∧ (0 : ℚ) ≤ 1 / 2) := by
  have h1 : ([(0 : ℚ), 0, 0]) ∈ deltas (atomTrack c7W 0) := by
    norm_num [deltas, atomTrack, dupHead, c7W, wrapDelta_zero]
  have h2 : (0 : ℚ) ∈ ([(0 : ℚ), 0, 0]) := by simp
  exact ⟨h1, h2, c7_wrap_interval c7W 0 _ _ h1 h2⟩

/-- Twice the identity lattice. -/
def twoM : List (List ℚ) := [[2, 0, 0], [0, 2, 0], [0, 0, 2]]

/-- Three frames whose first and last lattice matrices are exactly equal
(`idM`) but whose middle frame has lattice `twoM`; the single atom moves
during the middle frame. -/
def c8S : List Frame :=
  [⟨["Li"], [[0, 0, 0]], idM⟩, ⟨["Li"], [[1 / 10, 0, 0]], twoM⟩,
   ⟨["Li"], [[1 / 10, 0, 0]], idM⟩]

/-- C8 (counterexample): on `c8S` the first and last lattice matrices
are exactly equal, yet the displacement array differs from the
constant-lattice (frame-0 matrix) transform: frame 1 is transformed by
its own lattice `twoM`, not by frame 0's. -/
theorem c8_counterexample :
    c8S.head?.map Frame.lattice = (c8S.getLast?).map Frame.lattice ∧
    dispOf c8S ≠ dispOfConstLattice c8S := by
  constructor
  · norm_num [c8S, idM]
  · norm_num [dispOf, dispOfConstLattice, cDispRow, fDisp, cumsumFrom, deltas, atomTrack,
      dupHead, c8S, idM, twoM, wrapDelta_zero, wrapDelta_tenth, dotVM,
      List.replicate_succ, List.replicate_zero]

/-- `np.cumsum` preserves the number of frames. -/
lemma cumsumFrom_length : ∀ (l : List (List ℚ)) (acc : List ℚ),
    (cumsumFrom acc l).length = l.length := by
  intro l
  induction l with
  | nil => intro acc; rfl
  | cons v vs ih => intro acc; simp [cumsumFrom, ih]

/-- `zipWith` against a constant list is a `map`. -/
lemma zipWith_all_eq {α β γ : Type} (f : α → β → γ) (c : β) :
    ∀ (l : List α) (ms : List β), (∀ m ∈ ms, m = c) → l.length ≤ ms.length →
      List.zipWith f l ms = l.map (fun x => f x c) := by
  intro l
  induction l with
  | nil => intro ms _ _; simp
  | cons a t ih =>
    intro ms hms hlen
    cases ms with
    | nil => simp at hlen
    | cons m u =>
      rw [List.zipWith_cons_cons, hms m (List.mem_cons_self m u), List.map_cons,
        ih u (fun x hx => hms x (List.mem_cons_of_mem _ hx)) (by simpa using hlen)]

/-- C8 (amended): the transform in `_get_structure_and_disp` always uses
each frame's own lattice matrix (the first-equals-last check happens
after the transform and only collapses a local variable).  Consequently
the claim's conclusion holds exactly when every frame's lattice equals
frame 0's: then the per-frame transform coincides with the spec-modelled
constant-lattice transform. -/
theorem c8_const_lattice (S : List Frame) (L : List (List ℚ))
    (hL : ∀ s ∈ S, s.lattice = L) : dispOf S = dispOfConstLattice S := by
  cases S with
  | nil => rfl
  | cons s0 rest =>
    unfold dispOf dispOfConstLattice
    refine List.map_congr_left (fun a _ => ?_)
    unfold cDispRow
    have h0 : s0.lattice = L := hL s0 (List.mem_cons_self s0 rest)
    have hmem : ∀ m ∈ (s0 :: rest).map (fun s => s.lattice), m = L := by
      intro m hm
      obtain ⟨s, hs, rfl⟩ := List.mem_map.mp hm
      exact hL s hs
    have hlen : (fDisp (atomTrack (s0 :: rest) a)).length ≤
        ((s0 :: rest).map (fun s => s.lattice)).length := by
      simp [fDisp, cumsumFrom_length, deltas, atomTrack, dupHead]
    rw [zipWith_all_eq _ _ _ _ hmem hlen]
    show List.map (fun x => dotVM x L) (fDisp (atomTrack (s0 :: rest) a)) =
      List.map (fun v => dotVM v s0.lattice) (fDisp (atomTrack (s0 :: rest) a))
    rw [h0]

/-- Two frames sharing the lattice `idM`, witnessing `c8_const_lattice`. -/
def c8W : List Frame := [⟨["Li"], [[0, 0, 0]], idM⟩, ⟨["Li"], [[1 / 10, 0, 0]], idM⟩]

theorem c8_witness :
    (∀ s ∈ c8W, s.lattice = idM) ∧ dispOf c8W = dispOfConstLattice c8W := by
  have h : ∀ s ∈ c8W, s.lattice = idM := by
    intro s hs
    simp only [c8W, List.mem_cons, List.not_mem_nil, or_false] at hs
    rcases hs with rfl | rfl <;> rfl
  exact ⟨h, c8_const_lattice c8W idM h⟩

/-- The default frame used only to give `List.headD` a value; the source
raises `IndexError` on an empty trajectory before reaching any of the
steps modelled here, so every theorem below assumes a nonempty input. -/
def defFrame : Frame := ⟨[], [], []⟩

/-- `PymatgenParser.__init__(structures, specie, time_step, step_skip,
min_obs)`: build the displacement array, drift-correct it (collecting
`self.indices`, the mobile atoms of the frame-0 structure), take
`nsteps` from the array's frame axis, choose the smoothed timesteps
(the only step that can raise), and finally run `get_disps`. -/
def pymatgenParserInit (structures : List Frame) (specie : String)
    (time_step step_skip min_obs : ℕ) :
    Except PError
      (List ℕ × List QN × List (List (List QN)) × List (List (List QN))) :=
  let structure0 := structures.headD defFrame
  let disp := dispOf structures
  let dispF : ℕ → ℕ → ℕ → ℚ := fun i f ax => ((disp.getD i []).getD f []).getD ax 0
  let drift_corrected := correct_for_drift structure0.species specie dispF
  let indices := (speciesIndices structure0.species specie).1
  let nsteps := (disp.headD []).length
  match smoothed_timesteps time_step step_skip indices nsteps min_obs with
  | Except.error e => Except.error e
  | Except.ok timesteps =>
      Except.ok (get_disps time_step step_skip indices nsteps drift_corrected timesteps)

/-- Two-frame trajectory whose only species is Li. -/
def c9S : List Frame := [⟨["Li"], [[0, 0, 0]], idM⟩, ⟨["Li"], [[0, 0, 0]], idM⟩]

/-- C9 (counterexample): constructing the parser over `c9S` with the
mobile species `"Na"` (which matches zero atoms) fails with the generic
insufficient-data error raised inside `smoothed_timesteps`, not with a
`ConfigurationError` at the point of species selection. -/
theorem c9_counterexample :
    pymatgenParserInit c9S "Na" 1 1 30 = Except.error PError.insufficientData ∧
    PError.insufficientData ≠ PError.configurationError :=
  ⟨rfl, by decide⟩

/-- C9 (amended): no configuration check exists in the constructor: for
every nonempty trajectory with at least one atom, positive sampling
parameters and a species selector matching zero atoms, construction
fails with the insufficient-data `ValueError` raised in
`smoothed_timesteps` (the empty mobile set forces `max_dt = 0`), never
with a `ConfigurationError`; with fewer than 2 frames there is likewise
no dedicated check, failure (if any) occurring in `smoothed_timesteps`. -/
theorem c9_error_is_insufficient_data (structures : List Frame) (specie : String)
    (ts ss mo : ℕ) (hne : structures ≠ [])
    (hat : (structures.headD defFrame).frac_coords ≠ [])
    (hts : 0 < ss * ts) (hmo : 0 < mo)
    (hmob : (speciesIndices (structures.headD defFrame).species specie).1 = []) :
    pymatgenParserInit structures specie ts ss mo =
      Except.error PError.insufficientData := by
  have hsm : ∀ n : ℕ, smoothed_timesteps ts ss ([] : List ℕ) n mo =
      Except.error PError.insufficientData := by
    intro n
    unfold smoothed_timesteps
    simp
  simp only [pymatgenParserInit, hmob, hsm]

theorem c9_witness :
    c9S ≠ [] ∧ (c9S.headD defFrame).frac_coords ≠ [] ∧ 0 < 1 * 1 ∧ 0 < 30 ∧
    (speciesIndices (c9S.headD defFrame).species "Na").1 = [] ∧
    pymatgenParserInit c9S "Na" 1 1 30 = Except.error PError.insufficientData := by
  refine ⟨by simp [c9S], by decide, by decide, by decide, by decide, ?_⟩
  exact c9_error_is_insufficient_data c9S "Na" 1 1 30 (by simp [c9S]) (by decide)
    (by decide) (by decide) (by decide)

end Kinisi

